import Mathlib

/-!
Verification development for the `aiosyslogd` syslog collection pipeline.

Python strings are modelled as `List Char`; datetimes as an explicit record
of calendar fields; machine behaviour (regular-expression matching of the
two fixed patterns in `server.py`, `str.strip`, `str(int)`, dict lookup) is
embedded as executable Lean functions translated from the source.  Character
classes (`\d`, `\w`, `\s`, `str.isspace`) are modelled by their ASCII
semantics.  Wall-clock reads (`datetime.now()`) and the local timezone used
by `astimezone()` become explicit parameters (`now`, a fixed offset `tz` in
minutes), so that every function is pure.
-/

set_option maxRecDepth 100000
set_option maxHeartbeats 2000000

namespace Aiosyslogd

/-- ASCII semantics of the Python whitespace class `\s` / `str.isspace`:
space, tab, newline, vertical tab, form feed, carriage return. -/
def isPySpace (c : Char) : Bool :=
  c == ' ' || c == '\t' || c == '\n' || c == Char.ofNat 11 || c == Char.ofNat 12 || c == '\r'

/-- ASCII semantics of the Python word class `\w`: letters, digits, underscore. -/
def isWordChar (c : Char) : Bool :=
  c.isAlphanum || c == '_'

/-- Character class `[\w\-\.]` used for the RFC 3164 hostname. -/
def isHostChar (c : Char) : Bool :=
  isWordChar c || c == '-' || c == '.'

/-! ### Decimal representations

`str(i)` in Python is modelled by `Nat.toDigits 10 i` (the character list of
`Nat.repr`).  The lemmas below recover the numeric value of such a list and
derive injectivity, which the priority-matrix proofs need in order to reason
about dictionary misses. -/

/-- Numeric value of a decimal digit list, exactly the fold used by
`String.toNat?`. -/
def decVal (cs : List Char) : Nat :=
  cs.foldl (fun a c => a * 10 + (c.toNat - 48)) 0

theorem decVal_foldl (cs : List Char) :
    ∀ v : Nat, cs.foldl (fun a c => a * 10 + (c.toNat - 48)) v
      = v * 10 ^ cs.length + decVal cs := by
  induction cs with
  | nil => intro v; simp [decVal]
  | cons c cs ih =>
    intro v
    have h1 := ih (v * 10 + (c.toNat - 48))
    have h2 := ih (0 * 10 + (c.toNat - 48))
    simp only [List.foldl_cons, List.length_cons, decVal] at h1 h2 ⊢
    rw [h1, h2]
    ring

theorem decVal_cons (d : Char) (acc : List Char) :
    decVal (d :: acc) = (d.toNat - 48) * 10 ^ acc.length + decVal acc := by
  have h := decVal_foldl acc (0 * 10 + (d.toNat - 48))
  simp only [decVal, List.foldl_cons] at h ⊢
  rw [h]
  ring

theorem dval_digitChar (d : Nat) (hd : d < 10) : (Nat.digitChar d).toNat - 48 = d := by
  interval_cases d <;> rfl

theorem digitChar_isDigit (d : Nat) (hd : d < 10) : (Nat.digitChar d).isDigit = true := by
  interval_cases d <;> rfl

theorem decVal_toDigitsCore (f : Nat) :
    ∀ (n : Nat) (acc : List Char), n < f →
      decVal (Nat.toDigitsCore 10 f n acc) = n * 10 ^ acc.length + decVal acc := by
  induction f with
  | zero => intro n acc h; omega
  | succ f ih =>
    intro n acc h
    have hmod : n % 10 < 10 := Nat.mod_lt _ (by omega)
    have hcons : decVal (Nat.digitChar (n % 10) :: acc)
        = (n % 10) * 10 ^ acc.length + decVal acc := by
      rw [decVal_cons, dval_digitChar _ hmod]
    by_cases h0 : n / 10 = 0
    · have hn : n < 10 := by omega
      simp only [Nat.toDigitsCore, h0, if_pos]
      rw [hcons, Nat.mod_eq_of_lt hn]
    · simp only [Nat.toDigitsCore, h0, if_neg, ite_false]
      have hlt : n / 10 < f := by
        have : n / 10 < n := Nat.div_lt_self (by omega) (by omega)
        omega
      rw [ih (n / 10) (Nat.digitChar (n % 10) :: acc) hlt]
      rw [hcons]
      simp only [List.length_cons]
      have hdm : n = 10 * (n / 10) + n % 10 := (Nat.div_add_mod n 10).symm
      have hpow : (10 : Nat) ^ (acc.length + 1) = 10 ^ acc.length * 10 := by ring
      calc n / 10 * 10 ^ (acc.length + 1) + ((n % 10) * 10 ^ acc.length + decVal acc)
          = (10 * (n / 10) + n % 10) * 10 ^ acc.length + decVal acc := by rw [hpow]; ring
        _ = n * 10 ^ acc.length + decVal acc := by rw [← hdm]

theorem decVal_toDigits (n : Nat) : decVal (Nat.toDigits 10 n) = n := by
  have := decVal_toDigitsCore (n + 1) n [] (Nat.lt_succ_self n)
  simpa [Nat.toDigits, decVal] using this

theorem toDigits_injective {m n : Nat} (h : Nat.toDigits 10 m = Nat.toDigits 10 n) : m = n := by
  have hm := decVal_toDigits m
  have hn := decVal_toDigits n
  rw [h] at hm
  omega

theorem toDigitsCore_acc_or_digit (f : Nat) :
    ∀ (n : Nat) (acc : List Char),
      Nat.toDigitsCore 10 f n acc = acc ∨
      ∃ c cs, Nat.toDigitsCore 10 f n acc = c :: cs ∧ c.isDigit = true := by
  induction f with
  | zero => intro n acc; left; rfl
  | succ f ih =>
    intro n acc
    have hmod : n % 10 < 10 := Nat.mod_lt _ (by omega)
    by_cases h0 : n / 10 = 0
    · right
      refine ⟨Nat.digitChar (n % 10), acc, ?_, digitChar_isDigit _ hmod⟩
      simp [Nat.toDigitsCore, h0]
    · simp only [Nat.toDigitsCore, h0, ite_false]
      rcases ih (n / 10) (Nat.digitChar (n % 10) :: acc) with h | ⟨c, cs, hc, hd⟩
      · right
        refine ⟨Nat.digitChar (n % 10), acc, h, digitChar_isDigit _ hmod⟩
      · right
        exact ⟨c, cs, hc, hd⟩

theorem toDigits_head_digit (n : Nat) :
    ∃ c cs, Nat.toDigits 10 n = c :: cs ∧ c.isDigit = true := by
  have hmod : n % 10 < 10 := Nat.mod_lt _ (by omega)
  unfold Nat.toDigits
  by_cases h0 : n / 10 = 0
  · refine ⟨Nat.digitChar (n % 10), [], ?_, digitChar_isDigit _ hmod⟩
    simp [Nat.toDigitsCore, h0]
  · simp only [Nat.toDigitsCore, h0, ite_false]
    rcases toDigitsCore_acc_or_digit n (n / 10) (Nat.digitChar (n % 10) :: []) with h | ⟨c, cs, hc, hd⟩
    · refine ⟨Nat.digitChar (n % 10), [], h, digitChar_isDigit _ hmod⟩
    · exact ⟨c, cs, hc, hd⟩

/-- Model of Python `str(c)` for an `int` value `c` (possibly negative). -/
def intStr (c : Int) : List Char :=
  if 0 ≤ c then Nat.toDigits 10 c.toNat else '-' :: Nat.toDigits 10 c.natAbs

/-! ### `priority.py` — `SyslogMatrix` -/

/-- Facility names, index = value (from `SyslogMatrix.FACILITIES`). -/
def FACILITIES : List (List Char) :=
  ["kernel".data, "user".data, "mail".data, "system".data, "security0".data,
   "syslog".data, "lpd".data, "nntp".data, "uucp".data, "time".data,
   "security1".data, "ftpd".data, "ntpd".data, "logaudit".data, "logalert".data,
   "clock".data, "local0".data, "local1".data, "local2".data, "local3".data,
   "local4".data, "local5".data, "local6".data, "local7".data]

/-- Severity names, index = value (from `SyslogMatrix.LEVELS`). -/
def LEVELS : List (List Char) :=
  ["emergency".data, "alert".data, "critical".data, "error".data,
   "warning".data, "notice".data, "info".data, "debug".data]

/-- The dictionary built by `SyslogMatrix.__init__`: key `str(i)` for
`i = 0..191` maps to `(FACILITIES[i / 8], LEVELS[i % 8])`; lookup of any
other key yields the `("kernel", "emergency")` fallback of
`SyslogMatrix.decode`. -/
def matrixGet (code : List Char) : List Char × List Char :=
  match (List.range 192).find? (fun i => Nat.toDigits 10 i == code) with
  | some i => (FACILITIES.getD (i / 8) [], LEVELS.getD (i % 8) [])
  | none => ("kernel".data, "emergency".data)

/-- Model of `SyslogMatrix.decode` on a string code: the dictionary lookup together
with `FACILITIES.index(facility)` and `LEVELS.index(level)`. -/
def decode (code : List Char) : (List Char × Nat) × (List Char × Nat) :=
  let fl := matrixGet code
  ((fl.1, FACILITIES.findIdx (fun x => x == fl.1)),
   (fl.2, LEVELS.findIdx (fun x => x == fl.2)))

/-- Model of `SyslogMatrix.decode_int` on a string code. -/
def decodeInt (code : List Char) : Nat × Nat :=
  ((decode code).1.2, (decode code).2.2)

/-- Model of `SyslogMatrix.decode_int` on an `int` code: the code is first converted
with `str(...)`. -/
def decodeIntOfInt (c : Int) : Nat × Nat :=
  decodeInt (intStr c)

theorem find?_of_unique {p : Nat → Bool} {l : List Nat} {c : Nat}
    (hc : c ∈ l) (hpc : p c = true) (huniq : ∀ i ∈ l, p i = true → i = c) :
    l.find? p = some c := by
  induction l with
  | nil => cases hc
  | cons a l ih =>
    by_cases ha : p a = true
    · have hac : a = c := huniq a (List.mem_cons_self a l) ha
      rw [List.find?_cons_of_pos _ ha, hac]
    · have hac : a ≠ c := fun h => ha (h ▸ hpc)
      have hcl : c ∈ l := by
        rcases List.mem_cons.mp hc with h | h
        · exact absurd h.symm hac
        · exact h
      rw [List.find?_cons_of_neg _ (by simpa using ha)]
      exact ih hcl (fun i hi hp => huniq i (List.mem_cons_of_mem _ hi) hp)

theorem matrixGet_canonical (c : Nat) (hc : c < 192) :
    matrixGet (Nat.toDigits 10 c) = (FACILITIES.getD (c / 8) [], LEVELS.getD (c % 8) []) := by
  have hfind : (List.range 192).find? (fun i => Nat.toDigits 10 i == Nat.toDigits 10 c)
      = some c := by
    apply find?_of_unique (List.mem_range.mpr hc)
    · simp
    · intro i _ hp
      exact toDigits_injective (by simpa using hp)
  simp [matrixGet, hfind]

theorem matrixGet_miss (code : List Char)
    (h : ∀ i : Nat, i < 192 → Nat.toDigits 10 i ≠ code) :
    matrixGet code = ("kernel".data, "emergency".data) := by
  have hfind : (List.range 192).find? (fun i => Nat.toDigits 10 i == code) = none := by
    rw [List.find?_eq_none]
    intro i hi
    simp only [List.mem_range] at hi
    simpa using h i hi
  simp [matrixGet, hfind]

theorem facilities_findIdx (k : Nat) (hk : k < 24) :
    FACILITIES.findIdx (fun x => x == FACILITIES.getD k []) = k := by
  interval_cases k <;> rfl

theorem levels_findIdx (k : Nat) (hk : k < 8) :
    LEVELS.findIdx (fun x => x == LEVELS.getD k []) = k := by
  interval_cases k <;> rfl

theorem decodeInt_canonical (c : Nat) (hc : c < 192) :
    decodeInt (Nat.toDigits 10 c) = (c / 8, c % 8) := by
  have h8 : c / 8 < 24 := by omega
  have hm : c % 8 < 8 := Nat.mod_lt _ (by omega)
  simp only [decodeInt, decode, matrixGet_canonical c hc]
  rw [facilities_findIdx _ h8, levels_findIdx _ hm]

theorem decodeInt_miss (code : List Char)
    (h : ∀ i : Nat, i < 192 → Nat.toDigits 10 i ≠ code) :
    decodeInt code = (0, 0) := by
  simp only [decodeInt, decode, matrixGet_miss code h]
  rfl

/-! ### Datetimes

A naive `datetime` is a record of calendar fields (milliseconds rather than
microseconds: the emission truncates `%f` to three digits anyway).
`astimezone().astimezone(UTC)` is modelled by a conversion with a fixed
local-offset `tz` in minutes, using standard civil-calendar arithmetic. -/

structure DT where
  year : Nat
  month : Nat
  day : Nat
  hour : Nat
  minute : Nat
  second : Nat
  ms : Nat
deriving DecidableEq, Repr

/-- Python `datetime` comparison: lexicographic on the fields. -/
def dtLt (a b : DT) : Bool :=
  a.year < b.year || (a.year == b.year &&
    (a.month < b.month || (a.month == b.month &&
      (a.day < b.day || (a.day == b.day &&
        (a.hour < b.hour || (a.hour == b.hour &&
          (a.minute < b.minute || (a.minute == b.minute &&
            (a.second < b.second || (a.second == b.second &&
              a.ms < b.ms)))))))))))

def dtLe (a b : DT) : Bool :=
  dtLt a b || a == b

/-- Days since 1970-01-01 of a civil date (standard era-based algorithm). -/
def daysFromCivil (y : Int) (m d : Nat) : Int :=
  let y2 : Int := if m ≤ 2 then y - 1 else y
  let era : Int := (if 0 ≤ y2 then y2 else y2 - 399) / 400
  let yoe : Int := y2 - era * 400
  let mp : Nat := (m + 9) % 12
  let doy : Int := (153 * mp + 2) / 5 + d - 1
  let doe : Int := yoe * 365 + yoe / 4 - yoe / 100 + doy
  era * 146097 + doe - 719468

/-- Civil date from days since 1970-01-01 (inverse of `daysFromCivil`). -/
def civilFromDays (z0 : Int) : Int × Nat × Nat :=
  let z : Int := z0 + 719468
  let era : Int := (if 0 ≤ z then z else z - 146096) / 146097
  let doe : Int := z - era * 146097
  let yoe : Int := (doe - doe / 1460 + doe / 36524 - doe / 146096) / 365
  let y : Int := yoe + era * 400
  let doy : Int := doe - (365 * yoe + yoe / 4 - yoe / 100)
  let mp : Int := (5 * doy + 2) / 153
  let d : Int := doy - (153 * mp + 2) / 5 + 1
  let m : Int := if mp < 10 then mp + 3 else mp - 9
  (if m ≤ 2 then y + 1 else y, m.toNat, d.toNat)

/-- Model of `dt.astimezone().astimezone(UTC)` for a naive local datetime, with the
local zone modelled as a fixed offset of `tz` minutes east of UTC. -/
def toUTC (dt : DT) (tz : Int) : DT :=
  let total : Int := daysFromCivil dt.year dt.month dt.day * 86400
    + dt.hour * 3600 + dt.minute * 60 + dt.second - tz * 60
  let days : Int := Int.fdiv total 86400
  let sod : Nat := (total - days * 86400).toNat
  let ymd := civilFromDays days
  ⟨ymd.1.toNat, ymd.2.1, ymd.2.2, sod / 3600, sod % 3600 / 60, sod % 60, dt.ms⟩

/-- Month abbreviations accepted (case-insensitively) by
`strptime(..., "%b %d %H:%M:%S")` in the C locale. -/
def MONTHS : List (List Char) :=
  ["jan".data, "feb".data, "mar".data, "apr".data, "may".data, "jun".data,
   "jul".data, "aug".data, "sep".data, "oct".data, "nov".data, "dec".data]

/-- Month lengths in the default `strptime` year 1900 (not a leap year). -/
def monthLen1900 (m : Nat) : Nat :=
  [31, 28, 31, 30, 31, 30, 31, 31, 30, 31, 30, 31].getD (m - 1) 0

/-- Model of `datetime.strptime(f"{mon} {day} {hr}:{min}:{sec}", "%b %d %H:%M:%S")`
restricted to the component shapes guaranteed by the RFC 3164 regex: month
lookup is case-insensitive, the day must exist in the (non-leap) default
year 1900, and the `datetime` constructor bounds apply. Returns
`(month, day, hour, minute, second)` or `none` for `ValueError`. -/
def strptime3164 (mon day hr minu sec : List Char) :
    Option (Nat × Nat × Nat × Nat × Nat) :=
  match MONTHS.findIdx? (fun x => x == mon.map Char.toLower) with
  | none => none
  | some mi =>
    let m := mi + 1
    let d := decVal day
    let h := decVal hr
    let mn := decVal minu
    let s := decVal sec
    if 1 ≤ d ∧ d ≤ monthLen1900 m ∧ h ≤ 23 ∧ mn ≤ 59 ∧ s ≤ 59 then
      some (m, d, h, mn, s)
    else none

/-- Decimal with leading zeros to width `w` (as `strftime` padding). -/
def padN (w n : Nat) : List Char :=
  List.replicate (w - (Nat.toDigits 10 n).length) '0' ++ Nat.toDigits 10 n

/-- Model of `strftime("%Y-%m-%dT%H:%M:%S.%f")[:-3] + "Z"`: ISO timestamp with
millisecond precision. -/
def fmtMs (d : DT) : List Char :=
  padN 4 d.year ++ '-' :: padN 2 d.month ++ '-' :: padN 2 d.day
    ++ 'T' :: padN 2 d.hour ++ ':' :: padN 2 d.minute ++ ':' :: padN 2 d.second
    ++ '.' :: padN 3 d.ms ++ ['Z']

/-! ### `server.py` — RFC 3164 pattern and `convert_rfc3164_to_rfc5424` -/

/-- The named groups captured by the RFC 3164 pattern of
`convert_rfc3164_to_rfc5424`. -/
structure R3164 where
  pri : List Char
  mon : List Char
  day : List Char
  hr : List Char
  minu : List Char
  sec : List Char
  host : List Char
  tag : List Char
  msg : List Char
deriving DecidableEq, Repr

/-- Model of `\s+`: at least one whitespace character, consumed greedily (any
shorter match would leave a following token starting on whitespace, which
every follow-up class of the pattern rejects). -/
def skipSpaces1 (l : List Char) : Option (List Char) :=
  if (l.takeWhile isPySpace).length == 0 then none else some (l.dropWhile isPySpace)

/-- The backtracking search of `(?P<tag>\S+?)(:|\s-)?\s`, entered with the
(nonempty) tag read so far in reverse: the lazy `\S+?` grows the tag one
character at a time; at each length the optional separator alternatives are
tried in pattern order (`:` then `\s-` then empty) followed by the final
`\s`. Returns `(tag, rest-after-\s)`. -/
def tagLoop (acc : List Char) : List Char → Option (List Char × List Char)
  | [] => none
  | c :: rest =>
    if c = ':' then
      match rest with
      | s :: r => if isPySpace s then some (acc.reverse, r) else tagLoop (c :: acc) rest
      | [] => none
    else if isPySpace c then
      match rest with
      | d :: s2 :: r2 =>
        if d = '-' ∧ isPySpace s2 then some (acc.reverse, r2) else some (acc.reverse, rest)
      | _ => some (acc.reverse, rest)
    else tagLoop (c :: acc) rest

/-- Model of `(?P<tag>\S+?)(:|\s-)?\s` anchored at the current position: the tag must
start with one non-space character. -/
def tagSplit (l : List Char) : Option (List Char × List Char) :=
  match l with
  | [] => none
  | c :: rest => if isPySpace c then none else tagLoop [c] rest

/-- The groups after `<pri>` captured by the RFC 3164 pattern. -/
structure R3164Body where
  mon : List Char
  day : List Char
  hr : List Char
  minu : List Char
  sec : List Char
  host : List Char
  tag : List Char
  msg : List Char
deriving DecidableEq, Repr

/-- The RFC 3164 pattern after the closing `>` of the PRI:
`(?P<mon>\w{3})\s+(?P<day>\d{1,2})\s+`
`(?P<hr>\d{2}):(?P<min>\d{2}):(?P<sec>\d{2})\s+(?P<host>[\w\-\.]+)\s+`
`(?P<tag>\S+?)(:|\s-)?\s(?P<msg>.*)` with `re.DOTALL`. Greedy bounded
repetitions are resolved to maximal runs (shorter alternatives always leave
a character the next pattern element rejects). -/
def match3164Body (r1 : List Char) : Option R3164Body :=
  match r1 with
  | a :: b :: c :: r2 =>
    if isWordChar a && isWordChar b && isWordChar c then
      match skipSpaces1 r2 with
      | none => none
      | some r3 =>
        let day := r3.takeWhile Char.isDigit
        if day.length = 0 ∨ 2 < day.length then none else
        match skipSpaces1 (r3.drop day.length) with
        | none => none
        | some r4 =>
          match r4 with
          | h1 :: h2 :: ':' :: m1 :: m2 :: ':' :: s1 :: s2 :: r5 =>
            if h1.isDigit && h2.isDigit && m1.isDigit && m2.isDigit
                && s1.isDigit && s2.isDigit then
              match skipSpaces1 r5 with
              | none => none
              | some r6 =>
                let host := r6.takeWhile isHostChar
                if host.length = 0 then none else
                match skipSpaces1 (r6.drop host.length) with
                | none => none
                | some r7 =>
                  match tagSplit r7 with
                  | none => none
                  | some (tag, msgRest) =>
                    some ⟨[a, b, c], day, [h1, h2], [m1, m2],
                      [s1, s2], host, tag, msgRest⟩
            else none
          | _ => none
    else none
  | _ => none

/-- Model of `re.match` of the full RFC 3164 pattern `<(?P<pri>\d{1,3})>...` of
`convert_rfc3164_to_rfc5424`. -/
def match3164 (m : List Char) : Option R3164 :=
  match m with
  | '<' :: r0 =>
    if (r0.takeWhile Char.isDigit).length = 0 ∨ 3 < (r0.takeWhile Char.isDigit).length
    then none
    else
      match r0.drop (r0.takeWhile Char.isDigit).length with
      | '>' :: r1 =>
        (match3164Body r1).map fun b =>
          ⟨r0.takeWhile Char.isDigit, b.mon, b.day, b.hr, b.minu, b.sec, b.host, b.tag, b.msg⟩
      | _ => none
  | _ => none

/-- Python `str.strip()`: drop ASCII whitespace from both ends. -/
def pyStrip (l : List Char) : List Char :=
  ((l.dropWhile isPySpace).reverse.dropWhile isPySpace).reverse

/-- Model of `re.match(r"^(.*)\[(\d+)\]$", raw_tag)`: greedy `.*` makes the bracket
group the final `[digits]` suffix; returns `(app_name, procid)`, with
`procid = "-"` when the pattern does not match. -/
def pidSplit (tag : List Char) : List Char × List Char :=
  match tag.reverse with
  | ']' :: r =>
    let ds := r.takeWhile Char.isDigit
    if ds.length = 0 then (tag, ['-'])
    else
      match r.drop ds.length with
      | '[' :: appRev => (appRev.reverse, ds.reverse)
      | _ => (tag, ['-'])
  | _ => (tag, ['-'])

/-- The timestamp reconstruction inside `convert_rfc3164_to_rfc5424`:
parse with the current year substituted, step the year back when the result
lies strictly in the future, convert to UTC and format; on `ValueError`
emit the current UTC time. The two `datetime.now()` reads of the source are
modelled by the single parameter `now` (a naive local datetime). -/
def rfc3164Timestamp (mon day hr minu sec : List Char) (now : DT) (tz : Int) :
    List Char :=
  match strptime3164 mon day hr minu sec with
  | some (mo, d, h, mi, s) =>
    let dtn : DT := ⟨now.year, mo, d, h, mi, s, 0⟩
    let chosen := if dtLt now dtn then { dtn with year := now.year - 1 } else dtn
    fmtMs (toUTC chosen tz)
  | none => fmtMs (toUTC now tz)

/-- The output of `convert_rfc3164_to_rfc5424` after `<pri>1 `:
`f"{timestamp} {hostname} {app_name} {procid} - - {msg}"`. -/
def convTail (p : R3164) (now : DT) (tz : Int) : List Char :=
  rfc3164Timestamp p.mon p.day p.hr p.minu p.sec now tz
    ++ ' ' :: p.host ++ ' ' :: (pidSplit p.tag).1 ++ ' ' :: (pidSplit p.tag).2
    ++ ' ' :: '-' :: ' ' :: '-' :: ' ' :: pyStrip p.msg

/-- Model of `convert_rfc3164_to_rfc5424`. -/
def convert (m : List Char) (now : DT) (tz : Int) : List Char :=
  match match3164 m with
  | none => m
  | some p => '<' :: p.pri ++ '>' :: '1' :: ' ' :: convTail p now tz

/-- Model of `normalize_to_rfc5424`: keep a message whose first `>` is followed by
`1` and whitespace, otherwise attempt the RFC 3164 conversion. -/
def normalize (m : List Char) (now : DT) (tz : Int) : List Char :=
  match m.findIdx? (fun c => c == '>') with
  | some p =>
    if 0 < p ∧ p + 2 < m.length ∧ m.getD (p + 1) ' ' = '1' ∧ isPySpace (m.getD (p + 2) ' ') then m
    else convert m now tz
  | none => convert m now tz

/-! ### `server.py` — RFC 5424 pattern and `process_datagram` -/

/-- The named groups of `SyslogUDPServer.RFC5424_PATTERN`. -/
structure R5424 where
  pri : List Char
  ver : List Char
  ts : List Char
  host : List Char
  app : List Char
  pid : List Char
  msgid : List Char
  sd : List Char
  msg : List Char
deriving DecidableEq, Repr

/-- Model of `(\S+)\s`: a maximal nonempty run of non-whitespace followed by one
whitespace character (shrinking the run would leave `\s` on a
non-whitespace character). -/
def token5424 (l : List Char) : Option (List Char × List Char) :=
  let t := l.takeWhile (fun c => !isPySpace c)
  if t.length = 0 then none
  else
    match l.drop t.length with
    | _ :: r => some (t, r)
    | [] => none

/-- One `\[.+?\]` group: the lazy body ends at the first `]` preceded by at
least one body character (later closings are never tried because the
pattern continuation always matches). -/
def sdGroup (l : List Char) : Option (List Char × List Char) :=
  match l with
  | '[' :: c :: rest =>
    match rest.dropWhile (fun x => x ≠ ']') with
    | ']' :: r => some ('[' :: c :: rest.takeWhile (fun x => x ≠ ']') ++ [']'], r)
    | _ => none
  | _ => none

/-- Greedy repetition `(?:\[.+?\])+` after the first group: keep consuming
groups while one parses (fuelled by the remaining length). -/
def sdLoop : Nat → List Char → List Char → List Char × List Char
  | 0, acc, l => (acc, l)
  | fuel + 1, acc, l =>
    match sdGroup l with
    | some (g, r) => sdLoop fuel (acc ++ g) r
    | none => (acc, l)

/-- Model of `(?P<sd>(\-|(?:\[.+?\])+))`: the `-` alternative is tried first. -/
def sdParse (l : List Char) : Option (List Char × List Char) :=
  match l with
  | '-' :: r => some (['-'], r)
  | _ =>
    match sdGroup l with
    | some (g, r) => some (sdLoop r.length g r)
    | none => none

/-- Model of `re.match` of `RFC5424_PATTERN`:
`<(?P<pri>\d+)>(?P<ver>\d+)\s(?P<ts>\S+)\s(?P<host>\S+)\s(?P<app>\S+)\s`
`(?P<pid>\S+)\s(?P<msgid>\S+)\s(?P<sd>(\-|(?:\[.+?\])+))\s?(?P<msg>.*)`
with `re.DOTALL`; `(?P<msg>.*)` is the whole remainder. -/
def match5424 (m : List Char) : Option R5424 :=
  match m with
  | '<' :: r0 =>
    let pri := r0.takeWhile Char.isDigit
    if pri.length = 0 then none else
    match r0.drop pri.length with
    | '>' :: r1 =>
      let ver := r1.takeWhile Char.isDigit
      if ver.length = 0 then none else
      match r1.drop ver.length with
      | c :: r2 =>
        if isPySpace c then
          match token5424 r2 with
          | none => none
          | some (ts, r3) =>
            match token5424 r3 with
            | none => none
            | some (host, r4) =>
              match token5424 r4 with
              | none => none
              | some (app, r5) =>
                match token5424 r5 with
                | none => none
                | some (pid2, r6) =>
                  match token5424 r6 with
                  | none => none
                  | some (msgid, r7) =>
                    match sdParse r7 with
                    | none => none
                    | some (sd, r8) =>
                      let r9 := match r8 with
                        | d :: rr => if isPySpace d then rr else r8
                        | [] => r8
                      some ⟨pri, ver, ts, host, app, pid2, msgid, sd, r9⟩
        else none
      | [] => none
    | _ => none
  | _ => none

/-- Leap year. -/
def isLeap (y : Nat) : Bool :=
  y % 4 = 0 && (y % 100 ≠ 0 || y % 400 = 0)

def monthLenY (y m : Nat) : Nat :=
  if m = 2 && isLeap y then 29 else monthLen1900 m

def parseDigits (n : Nat) (l : List Char) : Option (Nat × List Char) :=
  if (l.take n).length = n ∧ (l.take n).all Char.isDigit then
    some (decVal (l.take n), l.drop n)
  else none

/-- Model of `parts["ts"].upper().replace("Z", "+00:00")`. -/
def upperTs (l : List Char) : List Char :=
  (l.map Char.toUpper).flatMap (fun c => if c = 'Z' then "+00:00".data else [c])

/-- Offset suffix `±HH:MM` accepted by `fromisoformat` (shape check only:
the stored value keeps the parsed local fields, no claim inspects it). -/
def isoOffsetOk (l : List Char) : Bool :=
  match l with
  | [] => true
  | s :: h1 :: h2 :: ':' :: m1 :: m2 :: [] =>
    (s = '+' || s = '-') && h1.isDigit && h2.isDigit && m1.isDigit && m2.isDigit
      && decVal [h1, h2] ≤ 23 && decVal [m1, m2] ≤ 59
  | _ => false

/-- Fractional seconds `.f{1,6}`; value in microseconds. -/
def isoFrac (l : List Char) : Option (Nat × List Char) :=
  match l with
  | '.' :: rest =>
    let ds := rest.takeWhile Char.isDigit
    if 1 ≤ ds.length ∧ ds.length ≤ 6 then
      some (decVal ds * 10 ^ (6 - ds.length), rest.drop ds.length)
    else none
  | _ => some (0, l)

/-- Model of `datetime.fromisoformat` on the common `YYYY-MM-DD[*HH:MM[:SS[.f]]][±HH:MM]`
forms (the subset the pipeline produces); `none` models `ValueError`. -/
def fromIso (l : List Char) : Option DT :=
  match parseDigits 4 l with
  | none => none
  | some (y, r1) =>
    match r1 with
    | '-' :: r2 =>
      match parseDigits 2 r2 with
      | none => none
      | some (mo, r3) =>
        match r3 with
        | '-' :: r4 =>
          match parseDigits 2 r4 with
          | none => none
          | some (d, r5) =>
            if 1 ≤ mo ∧ mo ≤ 12 ∧ 1 ≤ d ∧ d ≤ monthLenY y mo then
              match r5 with
              | [] => some ⟨y, mo, d, 0, 0, 0, 0⟩
              | _ :: r6 =>
                match parseDigits 2 r6 with
                | none => none
                | some (h, r7) =>
                  match r7 with
                  | ':' :: r8 =>
                    match parseDigits 2 r8 with
                    | none => none
                    | some (mi, r9) =>
                      let core :=
                        match r9 with
                        | ':' :: r10 =>
                          match parseDigits 2 r10 with
                          | none => none
                          | some (s, r11) =>
                            match isoFrac r11 with
                            | none => none
                            | some (us, r12) => some (s, us, r12)
                        | _ => some (0, 0, r9)
                      match core with
                      | none => none
                      | some (s, us, rr) =>
                        if h ≤ 23 ∧ mi ≤ 59 ∧ s ≤ 59 ∧ isoOffsetOk rr then
                          some ⟨y, mo, d, h, mi, s, us / 1000⟩
                        else none
                  | _ => none
            else none
        | _ => none
    | _ => none

/-- One row of the `SystemEvents` tables, as built by `process_datagram`. -/
structure LogRecord where
  Facility : Nat
  Priority : Nat
  FromHost : List Char
  InfoUnitID : Nat
  ReceivedAt : DT
  DeviceReportedTime : DT
  SysLogTag : List Char
  ProcessID : List Char
  Message : List Char
deriving DecidableEq, Repr

/-- The fail-open PRI extraction of `process_datagram`:
`processed_data[1:pri_end] if pri_end != -1 else "14"` where
`pri_end = processed_data.find(">")`. -/
def failOpenCode (processed : List Char) : List Char :=
  match processed.findIdx? (fun c => c == '>') with
  | some p => (processed.drop 1).take (p - 1)
  | none => "14".data

/-- Model of `SyslogUDPServer.process_datagram` after a successful UTF-8 decode; the
clock reads and local zone inside `normalize_to_rfc5424` appear as the
parameters `now` and `tz`. The enclosing `except Exception` branch is
unreachable in this pure model. -/
def processDatagramChars (text : List Char) (peer : List Char)
    (receivedAt now : DT) (tz : Int) : LogRecord :=
  let processed := normalize text now tz
  match match5424 processed with
  | none =>
    let fp := decodeInt (failOpenCode processed)
    ⟨fp.1, fp.2, peer, 1, receivedAt, receivedAt, "UNKNOWN".data, "0".data, processed⟩
  | some parts =>
    let fp := decodeInt parts.pri
    let drt := match fromIso (upperTs parts.ts) with
      | some dtv => dtv
      | none => receivedAt
    ⟨fp.1, fp.2,
      (if parts.host = "-".data then peer else parts.host), 1,
      receivedAt, drt,
      (if parts.app = "-".data then "UNKNOWN".data else parts.app),
      (if parts.pid = "-".data then "0".data else parts.pid),
      pyStrip parts.msg⟩

/-- Model of `process_datagram` at the byte level: `data.decode("utf-8")` fails
exactly when the bytes are not valid UTF-8, in which case `None` is
returned. -/
def processDatagram (data : ByteArray) (peer : List Char)
    (receivedAt now : DT) (tz : Int) : Option LogRecord :=
  match String.fromUTF8? data with
  | none => none
  | some s => some (processDatagramChars s.data peer receivedAt now tz)

/-- One iteration of `database_writer` handling a dequeued datagram: the
record, if any, is appended to the in-flight batch. -/
def databaseWriterStep (batch : List LogRecord) (data : ByteArray)
    (peer : List Char) (receivedAt now : DT) (tz : Int) : List LogRecord :=
  match processDatagram data peer receivedAt now tz with
  | some r => batch ++ [r]
  | none => batch

/-! ### `db/sqlite.py` — `SQLiteDriver.write_batch` and the flush models -/

/-- The monthly partitions: association list from `strftime("%Y%m")` key to
committed rows, in insertion order. -/
abbrev Partitions := List (List Char × List LogRecord)

def getPartition (st : Partitions) (ym : List Char) : List LogRecord :=
  match st.find? (fun e => e.1 == ym) with
  | some e => e.2
  | none => []

def setPartition (st : Partitions) (ym : List Char) (rows : List LogRecord) :
    Partitions :=
  if st.any (fun e => e.1 == ym) then
    st.map (fun e => if e.1 == ym then (ym, rows) else e)
  else st ++ [(ym, rows)]

/-- Model of `batch[0]["ReceivedAt"].strftime("%Y%m")`. -/
def strftimeYM (d : DT) : List Char :=
  padN 4 d.year ++ padN 2 d.month

/-- Model of `SQLiteDriver.write_batch` on the success path: the whole batch is
inserted into the single partition keyed by the month of `batch[0]`
(`create_monthly_table` then one `executemany` and `commit`). -/
def writeBatch (st : Partitions) (batch : List LogRecord) : Partitions :=
  match batch with
  | [] => st
  | r :: _ =>
    let ym := strftimeYM r.ReceivedAt
    setPartition st ym (getPartition st ym ++ batch)

/-- A SQLite connection with its implicit transaction: DML statements
accumulate in `pending` until `commit` publishes them or `rollback`
discards them. -/
structure Conn where
  committed : Partitions
  pending : List (List Char × List LogRecord)
deriving DecidableEq, Repr

def commitConn (c : Conn) : Conn :=
  ⟨c.pending.foldl (fun st e => setPartition st e.1 (getPartition st e.1 ++ e.2))
      c.committed, []⟩

def rollbackConn (c : Conn) : Conn :=
  ⟨c.committed, []⟩

/-- Model of `SQLiteDriver.write_batch` (db/sqlite.py lines 67-101) with an explicit
failure oracle for the `executemany`/`commit` pair: on failure the
`except` branch always issues `rollback`. -/
def sqliteWriteBatch (c : Conn) (batch : List LogRecord) (fails : Bool) : Conn :=
  match batch with
  | [] => c
  | r :: _ =>
    let ym := strftimeYM r.ReceivedAt
    let c1 : Conn := ⟨c.committed, c.pending ++ [(ym, batch)]⟩
    if fails then rollbackConn c1 else commitConn c1

/-- Model of `SyslogUDPServer.write_batch_to_db` (server.py lines 269-302) with the
same failure oracle: in this variant `rollback` sits inside the
`if DEBUG and not self._shutting_down` guard. -/
def serverWriteBatchToDb (c : Conn) (batch : List LogRecord)
    (debug shuttingDown fails : Bool) : Conn :=
  match batch with
  | [] => c
  | r :: _ =>
    let ym := strftimeYM r.ReceivedAt
    let c1 : Conn := ⟨c.committed, c.pending ++ [(ym, batch)]⟩
    if fails then
      if debug && !shuttingDown then rollbackConn c1 else c1
    else commitConn c1

/-- The `database_writer` loop at flush granularity for the SQLite driver:
each in-flight batch is flushed once and cleared whether or not the flush
failed (`batch.clear()` runs unconditionally). -/
def runFlushes (c : Conn) : List (List LogRecord × Bool) → Conn
  | [] => c
  | (b, f) :: rest => runFlushes (sqliteWriteBatch c b f) rest

/-! ### `db/sqlite_utils.py` — query layer (modelled from the spec) -/

inductive Direction
  | next
  | prev
deriving DecidableEq, Repr

/-- Modelled from the spec: `QueryContext` of `aiosyslogd/db/sqlite_utils.py`
(the module is absent from src; only its tests exist). Empty strings stand
for absent `search_query` / `filters["from_host"]` / time-bound values, as
in the tests. -/
structure QueryContext where
  searchQuery : List Char
  fromHost : List Char
  tMin : List Char
  tMax : List Char
  lastId : Option Nat
  direction : Direction
  pageSize : Nat
deriving DecidableEq, Repr

/-- Modelled from the spec: `LogQuery.__init__` decides
`use_approximate_count`: "true iff `search_query` is empty AND
`filters.from_host` is empty AND at least one of `t_min`/`t_max` is
given". -/
def useApproximateCount (ctx : QueryContext) : Bool :=
  ctx.searchQuery == [] && ctx.fromHost == [] && (ctx.tMin != [] || ctx.tMax != [])

/-- Modelled from the spec: `LogQuery._get_total_log_count` — "Approximate
path (requires `id_hi` present): `total_logs = (id_hi - (id_lo ?? 1)) + 1`.
No DB round-trip." Otherwise the standard `COUNT(*)` result (`dbCount`) is
used; the returned flag records whether the count query was executed. -/
def getTotalLogCount (useApprox : Bool) (idLo idHi : Option Int)
    (dbCount : Int) : Int × Bool :=
  match useApprox, idHi with
  | true, some hi => ((hi - idLo.getD 1) + 1, false)
  | true, none => (dbCount, true)
  | false, _ => (dbCount, true)

/-- Modelled from the spec: the page bundle derived by
`LogQuery._prepare_pagination` (rows carried as their `ID`s). -/
structure PageResult where
  logs : List Nat
  hasNext : Bool
  hasPrev : Bool
  nextLastId : Option Nat
  prevLastId : Option Nat
deriving DecidableEq, Repr

/-- Modelled from the spec: `LogQuery._prepare_pagination` — reverse the
fetched rows when `direction=prev`, derive `has_more` from the extra row,
trim to `page_size`, and read the cursors off the trimmed list. -/
def preparePagination (direction : Direction) (lastId : Option Nat)
    (pageSize : Nat) (rows : List Nat) : PageResult :=
  let ordered := match direction with
    | .prev => rows.reverse
    | .next => rows
  let hasMore := pageSize < ordered.length
  let logs := ordered.take pageSize
  { logs := logs
    hasNext := match direction with
      | .next => hasMore
      | .prev => lastId.isSome
    hasPrev := match direction with
      | .next => lastId.isSome
      | .prev => hasMore
    nextLastId := logs.getLast?
    prevLastId := logs.head? }

/-! ### Shared helper lemmas -/

theorem intStr_ofNat (c : Nat) : intStr (c : Int) = Nat.toDigits 10 c := by
  simp [intStr, Int.toNat_natCast]

theorem intStr_neg {c : Int} (h : c < 0) :
    intStr c = '-' :: Nat.toDigits 10 c.natAbs := by
  rw [intStr, if_neg (by omega)]

/-! ### Test fixtures

`create_log_entry` of `tests/test_sqlite.py` and the cross-month batch of
`test_write_batch_across_month_boundary`. -/

def testRec (msg : String) (t : DT) : LogRecord :=
  ⟨1, 5, "testhost".data, 1, t, t, "test-app".data, "123".data, msg.data⟩

def crossMonthBatch : List LogRecord :=
  [testRec "log_may_1" ⟨2025, 5, 31, 23, 59, 58, 0⟩,
   testRec "log_may_2" ⟨2025, 5, 31, 23, 59, 59, 0⟩,
   testRec "log_june_1" ⟨2025, 6, 1, 0, 0, 0, 0⟩,
   testRec "log_june_2" ⟨2025, 6, 1, 0, 0, 1, 0⟩,
   testRec "log_june_3" ⟨2025, 6, 1, 0, 0, 2, 0⟩]

def emptyConn : Conn := ⟨[], []⟩

theorem isDigit_ne_gt {c : Char} (h : c.isDigit = true) : (c == '>') = false := by
  cases hb : (c == '>') with
  | false => rfl
  | true =>
    have hc : c = '>' := by simpa using hb
    subst hc
    exact absurd h (by decide)

theorem match3164_head_not_lt {c : Char} (r : List Char) (h : c ≠ '<') :
    match3164 (c :: r) = none := by
  unfold match3164
  split
  · next r0 heq =>
    injection heq with h1 _
    exact absurd h1 h
  · rfl

theorem head_gt_of_findIdx_zero {m : List Char}
    (h : m.findIdx? (fun c => c == '>') = some 0) : ∃ r, m = '>' :: r := by
  cases m with
  | nil => simp at h
  | cons c r =>
    rw [List.findIdx?_cons] at h
    by_cases hc : (c == '>') = true
    · have hce : c = '>' := by simpa using hc
      exact ⟨r, by rw [hce]⟩
    · rw [if_neg (by simpa using hc), List.findIdx?_succ] at h
      simp at h

/-- The already-canonical branch of `normalize_to_rfc5424`: when the first
`>` is followed by `1` and whitespace the message is returned unchanged —
also at `pri_end = 0`, where the RFC 3164 pattern cannot match either. -/
theorem normalize_canonical (m : List Char) (now : DT) (tz : Int) (p : Nat)
    (hf : m.findIdx? (fun c => c == '>') = some p)
    (h1 : m.getD (p + 1) ' ' = '1')
    (hlen : p + 2 < m.length)
    (hsp : isPySpace (m.getD (p + 2) ' ') = true) :
    normalize m now tz = m := by
  unfold normalize
  rw [hf]
  show (if 0 < p ∧ p + 2 < m.length ∧ m.getD (p + 1) ' ' = '1'
      ∧ isPySpace (m.getD (p + 2) ' ') = true then m else convert m now tz) = m
  by_cases hp : 0 < p
  · rw [if_pos ⟨hp, hlen, h1, hsp⟩]
  · have hp0 : p = 0 := by omega
    subst hp0
    rw [if_neg (fun hcon => absurd hcon.1 (lt_irrefl 0))]
    obtain ⟨r, hr⟩ := head_gt_of_findIdx_zero hf
    rw [hr]
    unfold convert
    rw [match3164_head_not_lt r (by decide)]

theorem findIdx_gt_append (pre suf : List Char)
    (hpre : ∀ c ∈ pre, (c == '>') = false) :
    (pre ++ '>' :: suf).findIdx? (fun c => c == '>') = some pre.length := by
  induction pre with
  | nil => simp [List.findIdx?_cons]
  | cons c pr ih =>
    have hc : (c == '>') = false := hpre c (List.mem_cons_self _ _)
    rw [List.cons_append, List.findIdx?_cons, if_neg (by simp [hc]),
      List.findIdx?_succ, ih (fun x hx => hpre x (List.mem_cons_of_mem _ hx))]
    simp

theorem getD_append_idx (pre l : List Char) (i : Nat) (d : Char) :
    (pre ++ l).getD (pre.length + i) d = l.getD i d := by
  induction pre with
  | nil => simp
  | cons c pr ih =>
    rw [List.cons_append, List.length_cons,
      show pr.length + 1 + i = (pr.length + i) + 1 from by omega,
      List.getD_cons_succ, ih]

theorem match3164_some_elim {m : List Char} {p : R3164}
    (h : match3164 m = some p) :
    ∃ r0, m = '<' :: r0 ∧ p.pri = r0.takeWhile Char.isDigit ∧ 0 < p.pri.length := by
  unfold match3164 at h
  split at h
  · next r0 =>
    refine ⟨r0, rfl, ?_⟩
    split at h
    · exact absurd h (by simp)
    · next hguard =>
      split at h
      · next r1 _ =>
        cases hb : match3164Body r1 with
        | none => rw [hb] at h; exact absurd h (by simp)
        | some b =>
          rw [hb] at h
          simp only [Option.map_some'] at h
          injection h with hp
          subst hp
          simp only [not_or] at hguard
          refine ⟨rfl, ?_⟩
          show 0 < (List.takeWhile Char.isDigit r0).length
          omega
      · exact absurd h (by simp)
  · exact absurd h (by simp)

theorem convert_eq_of_match {m : List Char} {p : R3164} (now : DT) (tz : Int)
    (h : match3164 m = some p) :
    convert m now tz = '<' :: p.pri ++ '>' :: '1' :: ' ' :: convTail p now tz := by
  unfold convert
  rw [h]

/-- The constructed RFC 5424 line of `convert_rfc3164_to_rfc5424` always
passes the detection of `normalize_to_rfc5424` (its first `>` closes the
all-digit PRI and is followed by `1` and a space). -/
theorem normalize_convert_output (pri tail : List Char) (now : DT) (tz : Int)
    (hdig : ∀ c ∈ pri, c.isDigit = true) :
    normalize ('<' :: pri ++ '>' :: '1' :: ' ' :: tail) now tz
      = '<' :: pri ++ '>' :: '1' :: ' ' :: tail := by
  have hpre : ∀ c ∈ '<' :: pri, (c == '>') = false := by
    intro c hc
    rcases List.mem_cons.mp hc with h | h
    · rw [h]; rfl
    · exact isDigit_ne_gt (hdig c h)
  have hshape : '<' :: pri ++ '>' :: '1' :: ' ' :: tail
      = ('<' :: pri) ++ '>' :: '1' :: ' ' :: tail := rfl
  apply normalize_canonical _ now tz ('<' :: pri).length
  · rw [hshape, findIdx_gt_append ('<' :: pri) ('1' :: ' ' :: tail) hpre]
  · rw [hshape, show ('<' :: pri).length + 1 = ('<' :: pri).length + 1 from rfl,
      getD_append_idx ('<' :: pri) ('>' :: '1' :: ' ' :: tail) 1]
    rfl
  · rw [hshape]
    simp only [List.length_append, List.length_cons]
    omega
  · rw [hshape, getD_append_idx ('<' :: pri) ('>' :: '1' :: ' ' :: tail) 2]
    rfl

theorem dtLe_of_not_lt {a b : DT} (h : dtLt a b = false) : dtLe b a = true := by
  have h2 : ¬ (dtLt a b = true) := by simp [h]
  cases a
  cases b
  simp only [dtLt, Bool.or_eq_true, Bool.and_eq_true, decide_eq_true_eq,
    beq_iff_eq] at h2
  simp only [dtLe, dtLt, Bool.or_eq_true, Bool.and_eq_true, decide_eq_true_eq,
    beq_iff_eq, DT.mk.injEq]
  omega

/-! ### Claim theorems -/

/-- C4: for every integer code in `[0, 191]`, `decode_int(code)` returns
`(code / 8, code % 8)` — hence `facility * 8 + severity == code` — and for
any integer code outside `[0, 191]` the `(0, 0)` (kernel, emergency)
fallback is returned; the function is total. -/
theorem C4_decode_int_round_trip :
    (∀ c : Nat, c < 192 →
      decodeIntOfInt c = (c / 8, c % 8) ∧
      (decodeIntOfInt c).1 * 8 + (decodeIntOfInt c).2 = c) ∧
    (∀ c : Int, c < 0 ∨ 191 < c → decodeIntOfInt c = (0, 0)) := by
  constructor
  · intro c hc
    have h : decodeIntOfInt (c : Int) = (c / 8, c % 8) := by
      unfold decodeIntOfInt
      rw [intStr_ofNat]
      exact decodeInt_canonical c hc
    refine ⟨h, ?_⟩
    rw [h]
    omega
  · intro c hc
    unfold decodeIntOfInt
    rcases hc with hneg | hbig
    · rw [intStr_neg hneg]
      apply decodeInt_miss
      intro i _ heq
      obtain ⟨d, ds, hd, hdig⟩ := toDigits_head_digit i
      rw [hd] at heq
      cases heq
      exact absurd hdig (by decide)
    · have h0 : 0 ≤ c := by omega
      rw [show intStr c = Nat.toDigits 10 c.toNat from by rw [intStr, if_pos h0]]
      apply decodeInt_miss
      intro i hi heq
      have hi2 : i = c.toNat := toDigits_injective heq
      omega

/-- Witness for C4 at concrete codes: `13` decodes to `(1, 5)` and
round-trips, while `999` and `-3` fall back to `(0, 0)`. -/
theorem C4_witness :
    decodeIntOfInt ((13 : Nat) : Int) = (13 / 8, 13 % 8) ∧
    decodeIntOfInt 999 = (0, 0) ∧
    decodeIntOfInt (-3) = (0, 0) :=
  ⟨(C4_decode_int_round_trip.1 13 (by decide)).1,
   C4_decode_int_round_trip.2 999 (Or.inr (by norm_num)),
   C4_decode_int_round_trip.2 (-3) (Or.inl (by norm_num))⟩

/-- C10: the matrix dictionary recognises only the exact canonical decimal
strings of codes in `[0, 191]`; any other key — including in-range numerals
with leading zeros such as `"013"` — decodes to the `(0, 0)` fallback, and
consequently a fail-open parse whose `<...>` slice is such a string yields
`Facility = Priority = 0`. -/
theorem C10_noncanonical_code_fallback :
    (∀ code : List Char,
      (∀ i : Nat, i < 192 → Nat.toDigits 10 i ≠ code) →
      decodeInt code = (0, 0)) ∧
    (∀ (text peer : List Char) (rAt now : DT) (tz : Int),
      match5424 (normalize text now tz) = none →
      (∀ i : Nat, i < 192 → Nat.toDigits 10 i ≠ failOpenCode (normalize text now tz)) →
      (processDatagramChars text peer rAt now tz).Facility = 0 ∧
      (processDatagramChars text peer rAt now tz).Priority = 0) := by
  constructor
  · intro code h
    exact decodeInt_miss code h
  · intro text peer rAt now tz h5424 hmiss
    have hd : decodeInt (failOpenCode (normalize text now tz)) = (0, 0) :=
      decodeInt_miss _ hmiss
    constructor <;> simp only [processDatagramChars, h5424, hd]

/-- Witness for C10: the datagram `<013>not valid` takes the fail-open path
and its in-range-but-padded PRI slice `"013"` decodes to `(0, 0)`. -/
theorem C10_witness :
    (processDatagramChars "<013>not valid".data "10.0.0.1".data
        ⟨2025, 6, 11, 12, 0, 0, 0⟩ ⟨2025, 6, 11, 12, 0, 0, 0⟩ 0).Facility = 0 ∧
    (processDatagramChars "<013>not valid".data "10.0.0.1".data
        ⟨2025, 6, 11, 12, 0, 0, 0⟩ ⟨2025, 6, 11, 12, 0, 0, 0⟩ 0).Priority = 0 :=
  C10_noncanonical_code_fallback.2 "<013>not valid".data "10.0.0.1".data
    ⟨2025, 6, 11, 12, 0, 0, 0⟩ ⟨2025, 6, 11, 12, 0, 0, 0⟩ 0
    (by decide) (by decide)

/-- C1 (code-bug demonstration): `write_batch` keys the whole flush by
`batch[0]`'s month — evaluated on the cross-month batch of
`test_write_batch_across_month_boundary`, all five records (including the
three June ones) are committed to partition `202505` and none to `202506`,
while the claim (and that test) require the split 2 / 3. -/
theorem C1_write_batch_ignores_month_groups :
    getPartition (writeBatch [] crossMonthBatch) "202505".data = crossMonthBatch ∧
    getPartition (writeBatch [] crossMonthBatch) "202506".data = [] ∧
    testRec "log_june_1" ⟨2025, 6, 1, 0, 0, 0, 0⟩ ∈
      getPartition (writeBatch [] crossMonthBatch) "202505".data := by
  refine ⟨by decide, by decide, by decide⟩

/-- C2 (code-bug demonstration): the SQLite driver rolls a failed flush
back (connection unchanged) and never retries it — later flushes are
unaffected — but `server.py`'s `write_batch_to_db` with `DEBUG` off leaves
the failed transaction open, and the next successful flush then commits the
failed batch's rows as well. -/
theorem C2_failed_flush_rollback :
    sqliteWriteBatch emptyConn crossMonthBatch true = emptyConn ∧
    runFlushes emptyConn
        [(crossMonthBatch, true), ([testRec "ok" ⟨2025, 7, 1, 0, 0, 0, 0⟩], false)]
      = ⟨[("202507".data, [testRec "ok" ⟨2025, 7, 1, 0, 0, 0, 0⟩])], []⟩ ∧
    serverWriteBatchToDb emptyConn crossMonthBatch false false true
      = ⟨[], [("202505".data, crossMonthBatch)]⟩ ∧
    testRec "log_may_1" ⟨2025, 5, 31, 23, 59, 58, 0⟩ ∈
      getPartition (serverWriteBatchToDb
          (serverWriteBatchToDb emptyConn crossMonthBatch false false true)
          [testRec "ok" ⟨2025, 7, 1, 0, 0, 0, 0⟩] false false false).committed
        "202505".data := by
  refine ⟨by decide, by decide, by decide, by decide⟩

/-- C9: `process_datagram` is total at the byte level — it returns `None`
exactly for invalid UTF-8 and a complete record otherwise — so the
`database_writer` appends nothing for an undecodable datagram (the batch
grows by the record list of the result, which is empty in that case). -/
theorem C9_process_datagram_total :
    ∀ (data : ByteArray) (peer : List Char) (rAt now : DT) (tz : Int)
      (batch : List LogRecord),
      (processDatagram data peer rAt now tz = none ↔ String.fromUTF8? data = none) ∧
      databaseWriterStep batch data peer rAt now tz
        = batch ++ (processDatagram data peer rAt now tz).toList := by
  intro data peer rAt now tz batch
  cases h : String.fromUTF8? data <;>
    simp [processDatagram, databaseWriterStep, h]

/-- C5 (spec-modelled): `use_approximate_count` holds iff the search query
and host filter are empty and a time bound is present; the approximate path
needs `id_hi` and computes `(id_hi - (id_lo ?? 1)) + 1` with no count query,
and without `id_hi` (or outside the approximate mode) the `COUNT(*)` result
is used. The closed conjuncts are the vectors of
`test_log_query_initialization` and `test_get_total_log_count`. -/
theorem C5_approximate_count :
    (∀ ctx : QueryContext,
      useApproximateCount ctx = true ↔
        (ctx.searchQuery = [] ∧ ctx.fromHost = [] ∧
          (ctx.tMin ≠ [] ∨ ctx.tMax ≠ []))) ∧
    (∀ (idLo : Option Int) (hi dbCount : Int),
      getTotalLogCount true idLo (some hi) dbCount
        = ((hi - idLo.getD 1) + 1, false)) ∧
    (∀ (idLo : Option Int) (dbCount : Int),
      getTotalLogCount true idLo none dbCount = (dbCount, true)) ∧
    (∀ (idLo idHi : Option Int) (dbCount : Int),
      getTotalLogCount false idLo idHi dbCount = (dbCount, true)) ∧
    useApproximateCount
      ⟨[], [], "2025-01-01T00:00".data, [], none, .next, 50⟩ = true ∧
    useApproximateCount
      ⟨"error".data, [], "2025-01-01T00:00".data, [], none, .next, 50⟩ = false ∧
    useApproximateCount
      ⟨[], "server-1".data, "2025-01-01T00:00".data, [], none, .next, 50⟩ = false ∧
    useApproximateCount ⟨[], [], [], [], none, .next, 50⟩ = false ∧
    getTotalLogCount true (some 101) (some 200) 500 = (100, false) ∧
    getTotalLogCount true (some 101) none 500 = (500, true) := by
  refine ⟨?_, ?_, ?_, ?_, by decide, by decide, by decide, by decide, by decide, by decide⟩
  · intro ctx
    simp [useApproximateCount, and_assoc]
  · intro idLo hi dbCount
    rfl
  · intro idLo dbCount
    rfl
  · intro idLo idHi dbCount
    rfl

/-- C6 (spec-modelled): pagination derivation — `prev` pages are reversed
before trimming (so an ascending fetch comes back newest-first), `has_more`
compares the fetched length with `page_size` and the list is trimmed to
`page_size`; the cursors are the first and last returned IDs; and the
`has_next_page` / `has_prev_page` flags swap roles between directions. -/
theorem C6_pagination :
    ∀ (lastId : Option Nat) (pageSize : Nat) (rows : List Nat),
      (preparePagination .prev lastId pageSize rows).logs
        = rows.reverse.take pageSize ∧
      (preparePagination .next lastId pageSize rows).logs
        = rows.take pageSize ∧
      (∀ direction,
        (preparePagination direction lastId pageSize rows).nextLastId
          = (preparePagination direction lastId pageSize rows).logs.getLast? ∧
        (preparePagination direction lastId pageSize rows).prevLastId
          = (preparePagination direction lastId pageSize rows).logs.head?) ∧
      ((preparePagination .next lastId pageSize rows).hasNext
          = decide (pageSize < rows.length) ∧
        (preparePagination .next lastId pageSize rows).hasPrev = lastId.isSome) ∧
      ((preparePagination .prev lastId pageSize rows).hasNext = lastId.isSome ∧
        (preparePagination .prev lastId pageSize rows).hasPrev
          = decide (pageSize < rows.length)) ∧
      (List.Pairwise (· < ·) rows →
        List.Pairwise (· > ·) ((preparePagination .prev lastId pageSize rows).logs)) := by
  intro lastId pageSize rows
  refine ⟨rfl, rfl, ?_, ⟨rfl, rfl⟩, ⟨rfl, by simp [preparePagination]⟩, ?_⟩
  · intro direction
    cases direction <;> exact ⟨rfl, rfl⟩
  · intro hsorted
    have hrev : List.Pairwise (· > ·) rows.reverse :=
      List.pairwise_reverse.mpr hsorted
    exact List.Pairwise.sublist (List.take_sublist _ _) hrev

/-- Witness for C6 at the `test_prepare_pagination` case 5 vector
(`direction=prev`, `last_id=100`, 51 ascending rows 101..151): the returned
page is the reversed, trimmed, strictly descending list. -/
theorem C6_witness :
    (preparePagination .prev (some 100) 50
        ((List.range 51).map (fun i => 101 + i))).logs
      = ((List.range 51).map (fun i => 101 + i)).reverse.take 50 ∧
    List.Pairwise (· > ·)
      (preparePagination .prev (some 100) 50
          ((List.range 51).map (fun i => 101 + i))).logs :=
  ⟨(C6_pagination (some 100) 50 ((List.range 51).map (fun i => 101 + i))).1,
   (C6_pagination (some 100) 50 ((List.range 51).map (fun i => 101 + i))).2.2.2.2.2
     (by decide)⟩

/-- C7: `normalize_to_rfc5424` is the identity on every already-canonical
message — whenever the character after the first `>` is `1` and the next is
whitespace the message comes back unchanged — and it is idempotent on its
own output. -/
theorem C7_normalize_identity_idempotent :
    (∀ (m : List Char) (now : DT) (tz : Int) (p : Nat),
      m.findIdx? (fun c => c == '>') = some p →
      m.getD (p + 1) ' ' = '1' →
      p + 2 < m.length →
      isPySpace (m.getD (p + 2) ' ') = true →
      normalize m now tz = m) ∧
    (∀ (m : List Char) (now : DT) (tz : Int),
      normalize (normalize m now tz) now tz = normalize m now tz) := by
  constructor
  · exact fun m now tz p hf h1 hlen hsp => normalize_canonical m now tz p hf h1 hlen hsp
  · intro m now tz
    have hnorm : normalize m now tz = m ∨ normalize m now tz = convert m now tz := by
      unfold normalize
      cases hf : m.findIdx? (fun c => c == '>') with
      | some p =>
        show ((if 0 < p ∧ p + 2 < m.length ∧ m.getD (p + 1) ' ' = '1'
              ∧ isPySpace (m.getD (p + 2) ' ') = true then m else convert m now tz) = m)
          ∨ ((if 0 < p ∧ p + 2 < m.length ∧ m.getD (p + 1) ' ' = '1'
              ∧ isPySpace (m.getD (p + 2) ' ') = true then m else convert m now tz)
            = convert m now tz)
        by_cases hcond : 0 < p ∧ p + 2 < m.length ∧ m.getD (p + 1) ' ' = '1'
            ∧ isPySpace (m.getD (p + 2) ' ') = true
        · exact Or.inl (by rw [if_pos hcond])
        · exact Or.inr (by rw [if_neg hcond])
      | none => exact Or.inr rfl
    rcases hnorm with h | h
    · rw [h]
      exact h
    · cases h3 : match3164 m with
      | none =>
        have hcm : convert m now tz = m := by
          unfold convert
          rw [h3]
        rw [h, hcm]
        exact h.trans hcm
      | some q =>
        have hcm := convert_eq_of_match now tz h3
        rw [h, hcm]
        obtain ⟨r0, _, hpri, _⟩ := match3164_some_elim h3
        exact normalize_convert_output q.pri (convTail q now tz) now tz
          (fun c hc => List.mem_takeWhile_imp (by rwa [hpri] at hc))

/-- Witness for C7: the already-canonical message of
`test_normalize_already_rfc5424` is returned unchanged. -/
theorem C7_witness :
    normalize "<34>1 2003-10-11T22:14:15.003Z mymachine.example.com su - ID47 - msg".data
      ⟨2025, 6, 11, 12, 0, 0, 0⟩ 0
      = "<34>1 2003-10-11T22:14:15.003Z mymachine.example.com su - ID47 - msg".data :=
  C7_normalize_identity_idempotent.1
    "<34>1 2003-10-11T22:14:15.003Z mymachine.example.com su - ID47 - msg".data
    ⟨2025, 6, 11, 12, 0, 0, 0⟩ 0 3 (by decide) (by decide) (by decide) (by decide)

/-- C8: for a matching RFC 3164 message the reconstructed timestamp takes
the current year, steps back one year exactly when the result would lie
strictly in the future (so it is never in the future), and is emitted as
the millisecond-precision UTC string; when the month/day string fails to
parse, the current UTC time is emitted instead. -/
theorem C8_rfc3164_timestamp :
    ∀ (m : List Char) (now : DT) (tz : Int) (p : R3164),
      1 ≤ now.year →
      match3164 m = some p →
      (convert m now tz = '<' :: p.pri ++ '>' :: '1' :: ' ' :: convTail p now tz) ∧
      (∀ mo d h mi s,
        strptime3164 p.mon p.day p.hr p.minu p.sec = some (mo, d, h, mi, s) →
        (rfc3164Timestamp p.mon p.day p.hr p.minu p.sec now tz
            = fmtMs (toUTC (if dtLt now ⟨now.year, mo, d, h, mi, s, 0⟩
                then ⟨now.year - 1, mo, d, h, mi, s, 0⟩
                else ⟨now.year, mo, d, h, mi, s, 0⟩) tz)) ∧
        dtLe (if dtLt now ⟨now.year, mo, d, h, mi, s, 0⟩
              then ⟨now.year - 1, mo, d, h, mi, s, 0⟩
              else ⟨now.year, mo, d, h, mi, s, 0⟩) now = true) ∧
      (strptime3164 p.mon p.day p.hr p.minu p.sec = none →
        rfc3164Timestamp p.mon p.day p.hr p.minu p.sec now tz
          = fmtMs (toUTC now tz)) := by
  intro m now tz p hy hm
  refine ⟨convert_eq_of_match now tz hm, ?_, ?_⟩
  · intro mo d h mi s hs
    unfold rfc3164Timestamp
    rw [hs]
    refine ⟨rfl, ?_⟩
    cases hlt : dtLt now ⟨now.year, mo, d, h, mi, s, 0⟩ with
    | true =>
      rw [if_pos rfl]
      have hyr : now.year - 1 < now.year := by omega
      simp only [dtLe, dtLt, Bool.or_eq_true, Bool.and_eq_true,
        decide_eq_true_eq]
      exact Or.inl (Or.inl hyr)
    | false =>
      rw [if_neg (by simp)]
      exact dtLe_of_not_lt hlt
  · intro hs
    unfold rfc3164Timestamp
    rw [hs]

/-- Witness for C8 at the vector of `test_rfc3164_timestamp_conversion_past`:
with "now" in January 2025 a December message is stamped with year 2024, and
the chosen timestamp is not in the future. -/
theorem C8_witness :
    convert "<34>Dec 10 22:14:15 mymachine su: test".data ⟨2025, 1, 15, 0, 0, 0, 0⟩ 0
      = "<34>1 2024-12-10T22:14:15.000Z mymachine su - - - test".data ∧
    dtLe ⟨2024, 12, 10, 22, 14, 15, 0⟩ ⟨2025, 1, 15, 0, 0, 0, 0⟩ = true := by
  have h := C8_rfc3164_timestamp "<34>Dec 10 22:14:15 mymachine su: test".data
    ⟨2025, 1, 15, 0, 0, 0, 0⟩ 0
    ⟨"34".data, "Dec".data, "10".data, "22".data, "14".data, "15".data,
      "mymachine".data, "su".data, "test".data⟩
    (by decide) (by decide)
  have h2 := h.2.1 12 10 22 14 15 (by decide)
  constructor
  · rw [h.1]
    decide
  · have h3 := h2.2
    rw [if_pos (by decide)] at h3
    exact h3

/-- C3 (amended): for every decoded datagram whose normalized text fails
the RFC 5424 grammar, `process_datagram` produces the fail-open record —
PRI slice between position 1 and the first `>` (default `"14"` without a
`>`), `FromHost` = peer IP, tag `UNKNOWN`, pid `0` — with `Message` equal
to the *normalized* text (hence to the original text exactly when the
normalizer left it unchanged). -/
theorem C3_fail_open_record :
    ∀ (text peer : List Char) (rAt now : DT) (tz : Int),
      match5424 (normalize text now tz) = none →
      processDatagramChars text peer rAt now tz =
        ⟨(decodeInt (failOpenCode (normalize text now tz))).1,
         (decodeInt (failOpenCode (normalize text now tz))).2,
         peer, 1, rAt, rAt, "UNKNOWN".data, "0".data,
         normalize text now tz⟩ := by
  intro text peer rAt now tz h
  simp only [processDatagramChars, h]

/-- Counterexample for C3 as stated: the RFC 3164 message with tag `[123]`
is rewritten by the normalizer into a line with an empty APP field, which
then fails the RFC 5424 grammar, so the fail-open record's `Message` is the
rewritten text, not the original datagram text. -/
theorem C3_counterexample :
    match5424 "<34>Oct 11 22:14:15 myhost [123]: hello".data = none ∧
    match5424 (normalize "<34>Oct 11 22:14:15 myhost [123]: hello".data
      ⟨2025, 10, 12, 0, 0, 0, 0⟩ 0) = none ∧
    (processDatagramChars "<34>Oct 11 22:14:15 myhost [123]: hello".data
        "10.0.0.1".data ⟨2025, 10, 11, 23, 30, 0, 0⟩ ⟨2025, 10, 12, 0, 0, 0, 0⟩ 0).Message
      ≠ "<34>Oct 11 22:14:15 myhost [123]: hello".data := by
  refine ⟨by decide, by decide, by decide⟩

/-- Witness for C3 (amended) at the vector of
`test_process_datagram_non_rfc5424`: the fail-open record of
`<14>Invalid syslog message`. -/
theorem C3_witness :
    processDatagramChars "<14>Invalid syslog message".data "192.168.1.1".data
        ⟨2025, 6, 11, 12, 0, 0, 0⟩ ⟨2025, 6, 11, 12, 0, 0, 0⟩ 0
      = ⟨1, 6, "192.168.1.1".data, 1, ⟨2025, 6, 11, 12, 0, 0, 0⟩,
          ⟨2025, 6, 11, 12, 0, 0, 0⟩, "UNKNOWN".data, "0".data,
          "<14>Invalid syslog message".data⟩ := by
  rw [C3_fail_open_record "<14>Invalid syslog message".data "192.168.1.1".data
    ⟨2025, 6, 11, 12, 0, 0, 0⟩ ⟨2025, 6, 11, 12, 0, 0, 0⟩ 0 (by decide)]
  decide

end Aiosyslogd
